import Mathlib

/-!
Verification of the darktable sources under study: the velvia saturation
module (src/iop/velvia.c), the DNG header writer helpers
(src/common/imageio_dng.h), and the trace-parsing core of the benchmark
utility (src/tests/benchmark/darktable-bench).

Machine floats are shallowly embedded as exact rationals (ℚ); C byte and
integer arithmetic is embedded as ℤ with explicit `% 2^w` where width
matters.  The C macros MAX/MIN/CLAMPS and the C library fabsf are embedded
as the explicit conditionals they expand to.
-/

namespace Velvia

/-- One 4-channel pixel of the pixel buffer (three colors plus alpha/mask),
each float sample embedded as a rational. -/
structure Pixel where
  r : ℚ
  g : ℚ
  b : ℚ
  a : ℚ
deriving DecidableEq

/-- Version-2 parameters: `dt_iop_velvia_params_t` from velvia.c
(declared bounds: strength $MIN 0 $MAX 100, bias $MIN 0 $MAX 1). -/
structure dt_iop_velvia_params_t where
  strength : ℚ
  bias : ℚ
deriving DecidableEq

/-- Legacy version-1 parameters: `dt_iop_velvia_params1_t` from velvia.c. -/
structure dt_iop_velvia_params1_t where
  saturation : ℚ
  vibrance : ℚ
  luminance : ℚ
  clarity : ℚ
deriving DecidableEq

/-- Per-pipeline working data: `dt_iop_velvia_data_t` from velvia.c. -/
structure dt_iop_velvia_data_t where
  strength : ℚ
  bias : ℚ
deriving DecidableEq

/-- The C macro `MAX(a, b)`, i.e. `a > b ? a : b`. -/
def MAX (a b : ℚ) : ℚ := if a > b then a else b

/-- The C macro `MIN(a, b)`, i.e. `a < b ? a : b`. -/
def MIN (a b : ℚ) : ℚ := if a < b then a else b

/-- The darktable macro `CLAMPS(A, L, H)`, i.e. `A > H ? H : (A < L ? L : A)`. -/
def CLAMPS (x lo hi : ℚ) : ℚ := if x > hi then hi else if x < lo then lo else x

/-- The C library `fabsf`. -/
def fabsf (x : ℚ) : ℚ := if x < 0 then -x else x

/-- `legacy_params` from velvia.c: `some` models the successful return 0 with
the new-parameter record filled in; `none` models the failing return 1, where
nothing is written into the new-parameter record. -/
def legacy_params (old : dt_iop_velvia_params1_t) (old_version new_version : ℤ) :
    Option dt_iop_velvia_params_t :=
  if old_version = 1 ∧ new_version = 2 then
    some { strength := old.saturation * old.vibrance / 100, bias := old.luminance }
  else
    none

/-- `pmax` of velvia.c line 149: max value in the RGB set. -/
def pmax (p : Pixel) : ℚ := MAX p.r (MAX p.g p.b)

/-- `pmin` of velvia.c line 150: min value in the RGB set. -/
def pmin (p : Pixel) : ℚ := MIN p.r (MIN p.g p.b)

/-- `plum` of velvia.c line 151: pixel luminosity `(pmax + pmin) / 2`. -/
def plum (p : Pixel) : ℚ := (pmax p + pmin p) / 2

/-- The divisor of whichever branch of the piecewise `psat` formula
(velvia.c lines 152-153) is selected for pixel `p`. -/
def psat_divisor (p : Pixel) : ℚ :=
  if plum p ≤ 1/2 then 1/100000 + pmax p + pmin p
  else 1/100000 + MAX 0 (2 - pmax p - pmin p)

/-- `psat` of velvia.c lines 152-153: the luminance-dependent piecewise
saturation estimate (the float literal 1e-5f is embedded as 1/100000). -/
def psat (p : Pixel) : ℚ :=
  if plum p ≤ 1/2 then (pmax p - pmin p) / (1/100000 + pmax p + pmin p)
  else (pmax p - pmin p) / (1/100000 + MAX 0 (2 - pmax p - pmin p))

/-- `pweight` of velvia.c lines 155-158: the weight of the pixel. -/
def pweight (bias : ℚ) (p : Pixel) : ℚ :=
  CLAMPS (((1 - (3/2 * psat p)) + ((1 + (fabsf (plum p - 1/2) * 2)) * (1 - bias)))
            / (1 + (1 - bias)))
    0 1

/-- The body of the transform loop of `process` (velvia.c lines 143-165) for
one pixel: the three color channels are computed from the input pixel `pin`
and written clamped to [0,1]; the 4th channel of the destination is not
written, so it keeps the prior destination value `pout.a`. -/
def velvia_colored (bias strength : ℚ) (pin pout : Pixel) : Pixel :=
  let saturation := strength * pweight bias pin
  { r := CLAMPS (pin.r + saturation * (pin.r - 1/2 * (pin.g + pin.b))) 0 1
    g := CLAMPS (pin.g + saturation * (pin.g - 1/2 * (pin.b + pin.r))) 0 1
    b := CLAMPS (pin.b + saturation * (pin.b - 1/2 * (pin.r + pin.g))) 0 1
    a := pout.a }

/-- `dt_iop_image_copy_by_size` as used by velvia.c line 135: copies the
whole region, all channels included, from input to output. -/
def dt_iop_image_copy_by_size (input : List Pixel) : List Pixel := input

/-- `dt_iop_alpha_copy(ivoid, ovoid, ...)` as used by velvia.c line 168:
copies the 4th channel of every pixel of the region from input to output,
leaving the color channels of the output in place. -/
def dt_iop_alpha_copy (input output : List Pixel) : List Pixel :=
  List.zipWith (fun pin pout => { pout with a := pin.a }) input output

/-- `process` from velvia.c: the output region is flattened row-major into a
list of pixels.  `input` is the input buffer over the region, `prior` is the
caller-allocated destination buffer's prior contents over the region (read
only where the code leaves bytes unwritten), `mask_display` is the test
`piece->pipe->mask_display & DT_DEV_PIXELPIPE_DISPLAY_MASK` of line 168. -/
def process (d : dt_iop_velvia_data_t) (mask_display : Bool)
    (input prior : List Pixel) : List Pixel :=
  let strength := d.strength / 100
  let colored :=
    if strength ≤ 0 then dt_iop_image_copy_by_size input
    else List.zipWith (velvia_colored d.bias strength) input prior
  if mask_display then dt_iop_alpha_copy input colored else colored

/-- The effect of `process` on the pixel at one index: what the loop body of
velvia.c computes from the input pixel and the prior destination pixel at
that same index. -/
def process_pixel (d : dt_iop_velvia_data_t) (mask_display : Bool)
    (pin pprior : Pixel) : Pixel :=
  let strength := d.strength / 100
  let colored := if strength ≤ 0 then pin else velvia_colored d.bias strength pin pprior
  if mask_display then { colored with a := pin.a } else colored

/-- The device-side action enqueued by `process_cl` (velvia.c lines 189-206):
either a direct region copy via `dt_opencl_enqueue_copy_image`, or a dispatch
of the `velvia` kernel with arguments width, height, strength/100 and bias. -/
inductive ClAction where
  | copyImage
  | kernelDispatch (width height : ℕ) (strength bias : ℚ)
deriving DecidableEq

/-- The branch taken by `process_cl` from velvia.c: the copy short-circuit
when `strength <= 0.0f`, the kernel dispatch otherwise. -/
def process_cl_action (d : dt_iop_velvia_data_t) (width height : ℕ) : ClAction :=
  if d.strength / 100 ≤ 0 then ClAction.copyImage
  else ClAction.kernelDispatch width height (d.strength / 100) d.bias

/-- Modelled from the spec: the OpenCL kernel `velvia` lives in
data/kernels/extended.cl (program 8 of programs.conf, see `init_global`),
which is not among the given sources; only its dispatcher `process_cl` is.
Spec section 4.4 declares the accelerator path "functionally equivalent to
section 4.3", and section 4.3 describes the algorithm: channel maximum,
minimum and midpoint; a luminance-dependent piecewise saturation estimate
avoiding division by zero via a small epsilon; a weight blending the inverse
of that estimate with a bias-adjusted luminance-distance term, clamped to
[0,1]; the global strength scaled by that weight; and a per-channel
contrast-around-the-other-two-channels adjustment clamped to [0,1].  The
kernel receives strength/100 and bias, per the dispatch at lines 196-206. -/
def velvia_cl_kernel_pixel (strength bias : ℚ) (p : Pixel) : Pixel :=
  let kmax := if p.r > (if p.g > p.b then p.g else p.b) then p.r
              else if p.g > p.b then p.g else p.b
  let kmin := if p.r < (if p.g < p.b then p.g else p.b) then p.r
              else if p.g < p.b then p.g else p.b
  let klum := (kmax + kmin) / 2
  let ksat := if klum ≤ 1/2 then (kmax - kmin) / (1/100000 + kmax + kmin)
              else (kmax - kmin) / (1/100000 + (if (0:ℚ) > 2 - kmax - kmin then 0 else 2 - kmax - kmin))
  let kdist := if klum - 1/2 < 0 then -(klum - 1/2) else klum - 1/2
  let kweightRaw := ((1 - (3/2 * ksat)) + ((1 + (kdist * 2)) * (1 - bias))) / (1 + (1 - bias))
  let kweight := if kweightRaw > 1 then 1 else if kweightRaw < 0 then 0 else kweightRaw
  let ksatStrength := strength * kweight
  let clamp01 := fun (x : ℚ) => if x > 1 then 1 else if x < 0 then 0 else x
  { r := clamp01 (p.r + ksatStrength * (p.r - 1/2 * (p.g + p.b)))
    g := clamp01 (p.g + ksatStrength * (p.g - 1/2 * (p.b + p.r)))
    b := clamp01 (p.b + ksatStrength * (p.b - 1/2 * (p.r + p.g)))
    a := p.a }

theorem alpha_copy_self : ∀ l : List Pixel, dt_iop_alpha_copy l l = l := by
  intro l
  induction l with
  | nil => rfl
  | cons p t ih =>
    simp only [dt_iop_alpha_copy, List.zipWith] at ih ⊢
    rw [ih]

theorem zipWith_left_eq {α β : Type} :
    ∀ (l : List α) (l' : List β), l.length = l'.length →
      List.zipWith (fun a _ => a) l l' = l := by
  intro l
  induction l with
  | nil => intro l' _; rfl
  | cons a t ih =>
    intro l' h
    cases l' with
    | nil => simp at h
    | cons b t' =>
      simp only [List.zipWith]
      rw [ih t' (by simpa using h)]

theorem alpha_copy_zipWith (f : Pixel → Pixel → Pixel) :
    ∀ (l l' : List Pixel),
      dt_iop_alpha_copy l (List.zipWith f l l')
        = List.zipWith (fun a b => { f a b with a := a.a }) l l' := by
  intro l
  induction l with
  | nil => intro l'; rfl
  | cons p t ih =>
    intro l'
    cases l' with
    | nil => rfl
    | cons q t' =>
      simp only [dt_iop_alpha_copy, List.zipWith] at ih ⊢
      rw [ih t']

theorem process_eq_zipWith (d : dt_iop_velvia_data_t) (mask : Bool)
    (input prior : List Pixel) (h : input.length = prior.length) :
    process d mask input prior = List.zipWith (process_pixel d mask) input prior := by
  by_cases hs : d.strength / 100 ≤ 0
  · have hpp : process_pixel d mask = fun pin _ => pin := by
      funext pin pprior
      cases mask <;> simp [process_pixel, hs]
    rw [hpp]
    rw [zipWith_left_eq input prior h]
    cases mask <;>
      simp [process, hs, dt_iop_image_copy_by_size, alpha_copy_self]
  · cases mask
    · have hproc : process d false input prior
          = List.zipWith (velvia_colored d.bias (d.strength / 100)) input prior := by
        simp [process, hs]
      have hpp : process_pixel d false = velvia_colored d.bias (d.strength / 100) := by
        funext pin pprior
        simp [process_pixel, hs]
      rw [hproc, hpp]
    · have hproc : process d true input prior
          = dt_iop_alpha_copy input
              (List.zipWith (velvia_colored d.bias (d.strength / 100)) input prior) := by
        simp [process, hs]
      have hpp : process_pixel d true
          = fun a b => { velvia_colored d.bias (d.strength / 100) a b with a := a.a } := by
        funext pin pprior
        simp [process_pixel, hs]
      rw [hproc, alpha_copy_zipWith, hpp]

theorem length_process (d : dt_iop_velvia_data_t) (mask : Bool)
    (input prior : List Pixel) (h : input.length = prior.length) :
    (process d mask input prior).length = input.length := by
  rw [process_eq_zipWith d mask input prior h]
  simp [h]

theorem process_get (d : dt_iop_velvia_data_t) (mask : Bool)
    (input prior : List Pixel) (h : input.length = prior.length) (k : ℕ)
    (hk : k < (process d mask input prior).length)
    (hk1 : k < input.length) (hk2 : k < prior.length) :
    (process d mask input prior).get ⟨k, hk⟩
      = process_pixel d mask (input.get ⟨k, hk1⟩) (prior.get ⟨k, hk2⟩) := by
  simp only [List.get_eq_getElem]
  have := process_eq_zipWith d mask input prior h
  rw [List.getElem_of_eq this]
  exact List.getElem_zipWith

theorem CLAMPS_le_hi (x lo hi : ℚ) (h : lo ≤ hi) : CLAMPS x lo hi ≤ hi := by
  unfold CLAMPS
  split_ifs <;> linarith

theorem CLAMPS_ge_lo (x lo hi : ℚ) (h : lo ≤ hi) : lo ≤ CLAMPS x lo hi := by
  unfold CLAMPS
  split_ifs <;> linarith

/-- C1: with working-data strength at most 0 after the division by 100,
`process` writes an exact copy of the input region to the output buffer, and
`process_cl` enqueues a direct region copy instead of a kernel dispatch. -/
theorem process_nonpos_strength_identity (d : dt_iop_velvia_data_t) (mask : Bool)
    (input prior : List Pixel) (width height : ℕ)
    (h : d.strength / 100 ≤ 0) :
    process d mask input prior = input
      ∧ process_cl_action d width height = ClAction.copyImage := by
  constructor
  · cases mask <;> simp [process, h, dt_iop_image_copy_by_size, alpha_copy_self]
  · simp [process_cl_action, h]

/-- Witness for C1 at concrete inputs. -/
theorem process_nonpos_strength_identity_check :
    process ⟨0, 1⟩ true [⟨1/2, 1/2, 1/2, 1⟩] [⟨0, 0, 0, 0⟩] = [⟨1/2, 1/2, 1/2, 1⟩]
      ∧ process_cl_action ⟨0, 1⟩ 3 2 = ClAction.copyImage :=
  process_nonpos_strength_identity ⟨0, 1⟩ true [⟨1/2, 1/2, 1/2, 1⟩] [⟨0, 0, 0, 0⟩] 3 2
    (by norm_num)

theorem pmin_nonneg (p : Pixel) (hr : 0 ≤ p.r) (hg : 0 ≤ p.g) (hb : 0 ≤ p.b) :
    0 ≤ pmin p := by
  unfold pmin MIN
  split_ifs <;> linarith

theorem pmax_nonneg (p : Pixel) (hr : 0 ≤ p.r) (hg : 0 ≤ p.g) (hb : 0 ≤ p.b) :
    0 ≤ pmax p := by
  unfold pmax MAX
  split_ifs <;> linarith

/-- C5: `legacy_params` succeeds exactly for the version pair (1, 2); every
other pair fails and leaves the new-parameter record unwritten (modelled by
the `none` result). -/
theorem legacy_params_succeeds_iff (old : dt_iop_velvia_params1_t)
    (old_version new_version : ℤ) :
    ((legacy_params old old_version new_version).isSome
        ↔ (old_version = 1 ∧ new_version = 2))
      ∧ (legacy_params old old_version new_version = none
        ↔ ¬(old_version = 1 ∧ new_version = 2)) := by
  unfold legacy_params
  split_ifs with h <;> simp [h]

/-- C6: the version-1-to-2 migration is the pure function sending a legacy
record to strength = saturation * vibrance / 100 and bias = luminance, with
no clamping to the declared bounds: the concrete record with saturation 200,
vibrance 100 and luminance 2 migrates to strength 200 > 100 and bias 2 > 1,
both outside the declared bounds [0,100] and [0,1]. -/
theorem legacy_params_v1_to_v2_formula :
    (∀ old : dt_iop_velvia_params1_t,
        legacy_params old 1 2
          = some { strength := old.saturation * old.vibrance / 100, bias := old.luminance })
      ∧ legacy_params ⟨200, 100, 2, 5⟩ 1 2 = some { strength := 200, bias := 2 }
      ∧ (100 : ℚ) < 200 ∧ (1 : ℚ) < 2 := by
  refine ⟨fun old => by simp [legacy_params], ?_, by norm_num, by norm_num⟩
  simp [legacy_params]

/-- C7: on the input pixel (0.8, 0.2, 0.2) the code computes pmax = 0.8,
pmin = 0.2 and plum = 0.5 exactly, selects the plum ≤ 0.5 branch of the
piecewise saturation formula, whose divisor 1e-5 + pmax + pmin is strictly
positive; and for any input with channels in [0,1] the divisor of whichever
branch is selected is at least 1e-5, so no division by zero occurs. -/
theorem velvia_saturated_red_branch_and_divisor :
    (pmax ⟨0.8, 0.2, 0.2, 1⟩ = 0.8
      ∧ pmin ⟨0.8, 0.2, 0.2, 1⟩ = 0.2
      ∧ plum ⟨0.8, 0.2, 0.2, 1⟩ = 0.5
      ∧ plum ⟨0.8, 0.2, 0.2, 1⟩ ≤ 1/2
      ∧ psat_divisor ⟨0.8, 0.2, 0.2, 1⟩ = 1/100000 + 0.8 + 0.2
      ∧ psat ⟨0.8, 0.2, 0.2, 1⟩ = (0.8 - 0.2) / (1/100000 + 0.8 + 0.2)
      ∧ 0 < psat_divisor ⟨0.8, 0.2, 0.2, 1⟩)
      ∧ ∀ p : Pixel, 0 ≤ p.r → 0 ≤ p.g → 0 ≤ p.b →
          1/100000 ≤ psat_divisor p := by
  constructor
  · have hmax : pmax ⟨0.8, 0.2, 0.2, 1⟩ = 0.8 := by
      unfold pmax MAX
      norm_num
    have hmin : pmin ⟨0.8, 0.2, 0.2, 1⟩ = 0.2 := by
      unfold pmin MIN
      norm_num
    have hlum : plum ⟨0.8, 0.2, 0.2, 1⟩ = 0.5 := by
      unfold plum
      rw [hmax, hmin]
      norm_num
    have hle : plum ⟨0.8, 0.2, 0.2, 1⟩ ≤ 1/2 := by rw [hlum]; norm_num
    have hdiv : psat_divisor ⟨0.8, 0.2, 0.2, 1⟩ = 1/100000 + 0.8 + 0.2 := by
      unfold psat_divisor
      rw [if_pos hle, hmax, hmin]
    have hsat : psat ⟨0.8, 0.2, 0.2, 1⟩ = (0.8 - 0.2) / (1/100000 + 0.8 + 0.2) := by
      unfold psat
      rw [if_pos hle, hmax, hmin]
    exact ⟨hmax, hmin, hlum, hle, hdiv, hsat, by rw [hdiv]; norm_num⟩
  · intro p hr hg hb
    have h1 : 0 ≤ pmin p := pmin_nonneg p hr hg hb
    have h2 : 0 ≤ pmax p := pmax_nonneg p hr hg hb
    unfold psat_divisor
    split_ifs with h
    · linarith
    · have h3 : (0 : ℚ) ≤ MAX 0 (2 - pmax p - pmin p) := by
        unfold MAX
        split_ifs <;> linarith
      linarith

/-- Witness for C7: the universally quantified divisor bound at a concrete
pixel. -/
theorem velvia_saturated_red_branch_and_divisor_check :
    1/100000 ≤ psat_divisor ⟨0.3, 0.4, 0.9, 1⟩ :=
  velvia_saturated_red_branch_and_divisor.2 ⟨0.3, 0.4, 0.9, 1⟩
    (by norm_num) (by norm_num) (by norm_num)

theorem process_pixel_r (d : dt_iop_velvia_data_t) (mask : Bool) (pin pprior : Pixel) :
    (process_pixel d mask pin pprior).r
      = (if d.strength / 100 ≤ 0 then pin
        else velvia_colored d.bias (d.strength / 100) pin pprior).r := by
  cases mask <;> rfl

theorem process_pixel_g (d : dt_iop_velvia_data_t) (mask : Bool) (pin pprior : Pixel) :
    (process_pixel d mask pin pprior).g
      = (if d.strength / 100 ≤ 0 then pin
        else velvia_colored d.bias (d.strength / 100) pin pprior).g := by
  cases mask <;> rfl

theorem process_pixel_b (d : dt_iop_velvia_data_t) (mask : Bool) (pin pprior : Pixel) :
    (process_pixel d mask pin pprior).b
      = (if d.strength / 100 ≤ 0 then pin
        else velvia_colored d.bias (d.strength / 100) pin pprior).b := by
  cases mask <;> rfl

/-- C2: for input pixels with color channels in [0,1], strength in [0,100]
and bias in [0,1], every color channel written by `process` lies in [0,1]:
the transform branch clamps each channel to [0,1] and the strength ≤ 0
branch copies input values already in [0,1]. -/
theorem process_output_in_unit_range (d : dt_iop_velvia_data_t) (mask : Bool)
    (input prior : List Pixel) (hlen : input.length = prior.length)
    (hs0 : 0 ≤ d.strength) (hs1 : d.strength ≤ 100)
    (hb0 : 0 ≤ d.bias) (hb1 : d.bias ≤ 1)
    (hin : ∀ p ∈ input, 0 ≤ p.r ∧ p.r ≤ 1 ∧ 0 ≤ p.g ∧ p.g ≤ 1 ∧ 0 ≤ p.b ∧ p.b ≤ 1)
    (k : ℕ) (hk : k < (process d mask input prior).length) :
    0 ≤ ((process d mask input prior).get ⟨k, hk⟩).r
      ∧ ((process d mask input prior).get ⟨k, hk⟩).r ≤ 1
      ∧ 0 ≤ ((process d mask input prior).get ⟨k, hk⟩).g
      ∧ ((process d mask input prior).get ⟨k, hk⟩).g ≤ 1
      ∧ 0 ≤ ((process d mask input prior).get ⟨k, hk⟩).b
      ∧ ((process d mask input prior).get ⟨k, hk⟩).b ≤ 1 := by
  have hk1 : k < input.length := by
    rw [length_process d mask input prior hlen] at hk
    exact hk
  have hk2 : k < prior.length := hlen ▸ hk1
  rw [process_get d mask input prior hlen k hk hk1 hk2]
  obtain ⟨h1, h2, h3, h4, h5, h6⟩ :=
    hin (input.get ⟨k, hk1⟩) (by simp [List.get_mem])
  have h01 : (0 : ℚ) ≤ 1 := by norm_num
  rw [process_pixel_r, process_pixel_g, process_pixel_b]
  by_cases hs : d.strength / 100 ≤ 0
  · rw [if_pos hs]
    exact ⟨h1, h2, h3, h4, h5, h6⟩
  · rw [if_neg hs]
    exact ⟨CLAMPS_ge_lo _ _ _ h01, CLAMPS_le_hi _ _ _ h01, CLAMPS_ge_lo _ _ _ h01,
      CLAMPS_le_hi _ _ _ h01, CLAMPS_ge_lo _ _ _ h01, CLAMPS_le_hi _ _ _ h01⟩

/-- Witness for C2 on a one-pixel region. -/
theorem process_output_in_unit_range_check :
    0 ≤ ((process ⟨25, 1⟩ false [⟨0.8, 0.2, 0.2, 1⟩] [⟨0, 0, 0, 0⟩]).get ⟨0, by norm_num [process, dt_iop_alpha_copy, dt_iop_image_copy_by_size]⟩).r
      ∧ ((process ⟨25, 1⟩ false [⟨0.8, 0.2, 0.2, 1⟩] [⟨0, 0, 0, 0⟩]).get ⟨0, by norm_num [process, dt_iop_alpha_copy, dt_iop_image_copy_by_size]⟩).r ≤ 1
      ∧ 0 ≤ ((process ⟨25, 1⟩ false [⟨0.8, 0.2, 0.2, 1⟩] [⟨0, 0, 0, 0⟩]).get ⟨0, by norm_num [process, dt_iop_alpha_copy, dt_iop_image_copy_by_size]⟩).g
      ∧ ((process ⟨25, 1⟩ false [⟨0.8, 0.2, 0.2, 1⟩] [⟨0, 0, 0, 0⟩]).get ⟨0, by norm_num [process, dt_iop_alpha_copy, dt_iop_image_copy_by_size]⟩).g ≤ 1
      ∧ 0 ≤ ((process ⟨25, 1⟩ false [⟨0.8, 0.2, 0.2, 1⟩] [⟨0, 0, 0, 0⟩]).get ⟨0, by norm_num [process, dt_iop_alpha_copy, dt_iop_image_copy_by_size]⟩).b
      ∧ ((process ⟨25, 1⟩ false [⟨0.8, 0.2, 0.2, 1⟩] [⟨0, 0, 0, 0⟩]).get ⟨0, by norm_num [process, dt_iop_alpha_copy, dt_iop_image_copy_by_size]⟩).b ≤ 1 :=
  process_output_in_unit_range ⟨25, 1⟩ false [⟨0.8, 0.2, 0.2, 1⟩] [⟨0, 0, 0, 0⟩] rfl
    (by norm_num) (by norm_num) (by norm_num) (by norm_num)
    (by
      intro p hp
      simp only [List.mem_singleton] at hp
      subst hp
      norm_num)
    0 (by norm_num [process, dt_iop_alpha_copy, dt_iop_image_copy_by_size])

/-- C3: `process` is region-size-invariant: each output pixel is computed
from the buffers' pixels at the same flat index alone, never from the
region's dimensions, and processing the concatenation of two adjacent
sub-regions equals concatenating the two sub-regions' results. -/
theorem process_region_split (d : dt_iop_velvia_data_t) (mask : Bool)
    (input1 prior1 input2 prior2 : List Pixel)
    (h1 : input1.length = prior1.length) (h2 : input2.length = prior2.length) :
    process d mask (input1 ++ input2) (prior1 ++ prior2)
        = process d mask input1 prior1 ++ process d mask input2 prior2
      ∧ ∀ (k : ℕ) (hk : k < (process d mask input1 prior1).length)
          (hk1 : k < input1.length) (hk2 : k < prior1.length),
          (process d mask input1 prior1).get ⟨k, hk⟩
            = process_pixel d mask (input1.get ⟨k, hk1⟩) (prior1.get ⟨k, hk2⟩) := by
  constructor
  · have hlen : (input1 ++ input2).length = (prior1 ++ prior2).length := by
      simp [h1, h2]
    rw [process_eq_zipWith d mask _ _ hlen,
      process_eq_zipWith d mask input1 prior1 h1,
      process_eq_zipWith d mask input2 prior2 h2]
    exact List.zipWith_append _ _ _ _ _ h1
  · intro k hk hk1 hk2
    exact process_get d mask input1 prior1 h1 k hk hk1 hk2

/-- Witness for C3: splitting a two-pixel region into two one-pixel regions. -/
theorem process_region_split_check :
    process ⟨25, 1⟩ false [⟨1, 0, 0, 1⟩, ⟨0.5, 0.5, 0.5, 1⟩] [⟨0, 0, 0, 0⟩, ⟨0, 0, 0, 0⟩]
      = process ⟨25, 1⟩ false [⟨1, 0, 0, 1⟩] [⟨0, 0, 0, 0⟩]
        ++ process ⟨25, 1⟩ false [⟨0.5, 0.5, 0.5, 1⟩] [⟨0, 0, 0, 0⟩] :=
  (process_region_split ⟨25, 1⟩ false [⟨1, 0, 0, 1⟩] [⟨0, 0, 0, 0⟩]
    [⟨0.5, 0.5, 0.5, 1⟩] [⟨0, 0, 0, 0⟩] rfl rfl).1

/-- C8: on 4-channel buffers, when the pipeline's mask-display flag is set
`process` copies the 4th channel verbatim from input to output after the
color computation; when it is not set and strength > 0 the transform loop
writes only channels 0-2, so the output's 4th channel keeps the destination
buffer's prior contents. -/
theorem process_alpha_channel_behavior (d : dt_iop_velvia_data_t) (mask : Bool)
    (input prior : List Pixel) (hlen : input.length = prior.length)
    (k : ℕ) (hk : k < (process d mask input prior).length)
    (hk1 : k < input.length) (hk2 : k < prior.length) :
    (mask = true →
        ((process d mask input prior).get ⟨k, hk⟩).a = (input.get ⟨k, hk1⟩).a)
      ∧ (mask = false → 0 < d.strength / 100 →
        ((process d mask input prior).get ⟨k, hk⟩).a = (prior.get ⟨k, hk2⟩).a) := by
  rw [process_get d mask input prior hlen k hk hk1 hk2]
  constructor
  · rintro rfl
    by_cases hs : d.strength / 100 ≤ 0 <;> simp [process_pixel, hs]
  · rintro rfl hpos
    have hs : ¬ d.strength / 100 ≤ 0 := not_le.mpr hpos
    simp [process_pixel, hs, velvia_colored]

/-- Witness for C8 with the mask-display flag set on a one-pixel region. -/
theorem process_alpha_channel_behavior_check :
    ((process ⟨25, 1⟩ true [⟨0.8, 0.2, 0.2, 0.7⟩] [⟨0, 0, 0, 0.3⟩]).get
        ⟨0, by norm_num [process, dt_iop_alpha_copy, dt_iop_image_copy_by_size]⟩).a = 0.7 := by
  have h := (process_alpha_channel_behavior ⟨25, 1⟩ true [⟨0.8, 0.2, 0.2, 0.7⟩]
    [⟨0, 0, 0, 0.3⟩] rfl 0 (by norm_num [process, dt_iop_alpha_copy, dt_iop_image_copy_by_size]) (by norm_num) (by norm_num)).1 rfl
  exact h

/-- C4: for valid inputs (channels in [0,1]) and identical regions, the
accelerator kernel dispatched by `process_cl` (arguments strength/100 and
bias) agrees with the general-path `process` per pixel and per color channel
within the documented tolerance of 1e-4 (here the modelled difference is 0). -/
theorem velvia_cl_kernel_matches_process (d : dt_iop_velvia_data_t) (mask : Bool)
    (pin pprior : Pixel)
    (hr0 : 0 ≤ pin.r) (hr1 : pin.r ≤ 1) (hg0 : 0 ≤ pin.g) (hg1 : pin.g ≤ 1)
    (hb0 : 0 ≤ pin.b) (hb1 : pin.b ≤ 1)
    (hs : ¬ d.strength / 100 ≤ 0) :
    |(velvia_cl_kernel_pixel (d.strength / 100) d.bias pin).r
        - (process_pixel d mask pin pprior).r| ≤ 1/10000
      ∧ |(velvia_cl_kernel_pixel (d.strength / 100) d.bias pin).g
        - (process_pixel d mask pin pprior).g| ≤ 1/10000
      ∧ |(velvia_cl_kernel_pixel (d.strength / 100) d.bias pin).b
        - (process_pixel d mask pin pprior).b| ≤ 1/10000 := by
  have hcolored : ∀ pout : Pixel,
      (velvia_cl_kernel_pixel (d.strength / 100) d.bias pin).r
          = (velvia_colored d.bias (d.strength / 100) pin pout).r
        ∧ (velvia_cl_kernel_pixel (d.strength / 100) d.bias pin).g
          = (velvia_colored d.bias (d.strength / 100) pin pout).g
        ∧ (velvia_cl_kernel_pixel (d.strength / 100) d.bias pin).b
          = (velvia_colored d.bias (d.strength / 100) pin pout).b := by
    intro pout
    refine ⟨rfl, rfl, rfl⟩
  have hpp : (process_pixel d mask pin pprior).r
        = (velvia_colored d.bias (d.strength / 100) pin pprior).r
      ∧ (process_pixel d mask pin pprior).g
        = (velvia_colored d.bias (d.strength / 100) pin pprior).g
      ∧ (process_pixel d mask pin pprior).b
        = (velvia_colored d.bias (d.strength / 100) pin pprior).b := by
    cases mask <;> simp [process_pixel, hs]
  obtain ⟨e1, e2, e3⟩ := hcolored pprior
  obtain ⟨f1, f2, f3⟩ := hpp
  rw [e1, e2, e3, f1, f2, f3]
  norm_num

/-- Witness for C4 at the saturated red pixel with default parameters. -/
theorem velvia_cl_kernel_matches_process_check :
    |(velvia_cl_kernel_pixel ((25 : ℚ) / 100) 1 ⟨0.8, 0.2, 0.2, 1⟩).r
        - (process_pixel ⟨25, 1⟩ false ⟨0.8, 0.2, 0.2, 1⟩ ⟨0, 0, 0, 0⟩).r| ≤ 1/10000 :=
  (velvia_cl_kernel_matches_process ⟨25, 1⟩ false ⟨0.8, 0.2, 0.2, 1⟩ ⟨0, 0, 0, 0⟩
    (by norm_num) (by norm_num) (by norm_num) (by norm_num) (by norm_num) (by norm_num)
    (by norm_num)).1

end Velvia

namespace Bench

/-- Python `haystack.find(needle)` restricted to a successful result: the
first index at which `needle` occurs in `haystack`, or `none` where Python
returns -1. -/
def findFrom (needle : List Char) : List Char → Option ℕ
  | [] => if needle = [] then some 0 else none
  | c :: rest =>
    if needle.isPrefixOf (c :: rest) then some 0
    else (findFrom needle rest).map (· + 1)

/-- Python `needle in haystack` for strings. -/
def strContains (needle haystack : List Char) : Bool :=
  (findFrom needle haystack).isSome

/-- Python whitespace as removed by `str.strip()` (ASCII subset). -/
def pySpace (c : Char) : Bool :=
  c = ' ' ∨ c = '\t' ∨ c = '\n' ∨ c = '\r' ∨ c = '\x0b' ∨ c = '\x0c'

/-- Python `str.strip()`. -/
def pyStrip (s : List Char) : List Char :=
  ((s.dropWhile pySpace).reverse.dropWhile pySpace).reverse

/-- A maximal leading run of decimal digits, as digit values, with the rest
of the string. -/
def takeDigits : List Char → List ℕ × List Char
  | [] => ([], [])
  | c :: rest =>
    if '0' ≤ c ∧ c ≤ '9' then
      let p := takeDigits rest
      ((c.toNat - 48) :: p.1, p.2)
    else ([], c :: rest)

/-- The natural number denoted by a list of decimal digit values. -/
def digitsToNat (ds : List ℕ) : ℕ := ds.foldl (fun acc d => 10 * acc + d) 0

/-- Python's builtin `float()` on an already-stripped string, embedded
exactly over decimal forms (optional sign, digits, optional fraction,
optional decimal exponent): `none` models the raised ValueError on malformed
input (the inf/nan/underscore forms, not representable in ℚ or absent from
the diagnostic traces at issue, are also mapped to `none`). -/
def pyFloat (s : List Char) : Option ℚ :=
  let signBody : ℚ × List Char :=
    match s with
    | '-' :: r => (-1, r)
    | '+' :: r => (1, r)
    | _ => (1, s)
  let ip := takeDigits signBody.2
  let fp :=
    match ip.2 with
    | '.' :: r => takeDigits r
    | _ => ([], ip.2)
  if ip.1 = [] ∧ fp.1 = [] then none
  else
    let mant : ℚ := (digitsToNat ip.1 : ℚ) + (digitsToNat fp.1 : ℚ) / 10 ^ fp.1.length
    match fp.2 with
    | [] => some (signBody.1 * mant)
    | e :: r =>
      if e = 'e' ∨ e = 'E' then
        let esignBody : ℤ × List Char :=
          match r with
          | '-' :: rr => (-1, rr)
          | '+' :: rr => (1, rr)
          | _ => (1, r)
        let ed := takeDigits esignBody.2
        if ed.1 = [] ∨ ed.2 ≠ [] then none
        else some (signBody.1 * mant * (10 : ℚ) ^ (esignBody.1 * (digitsToNat ed.1 : ℤ)))
      else none

/-- `extract_seconds` from darktable-bench: take the text after the first
`took` (only when its index is > 0), cut it before the first `sec` (only
when that index is > 0), strip it and parse it as a float; the early-return
paths yield 0.0.  `none` models the float() ValueError propagating. -/
def extract_seconds (line : List Char) : Option ℚ :=
  match findFrom ("took".data) line with
  | none => some 0
  | some pos =>
    if 0 < pos then
      let rest := line.drop (pos + 4)
      match findFrom ("sec".data) rest with
      | none => some 0
      | some pos2 =>
        if 0 < pos2 then pyFloat (pyStrip (rest.take pos2))
        else some 0
    else some 0

/-- The accumulator of run_benchmark's trace loop: loadtime, savetime,
pixpipe and the gpu flag, with savetime initialized to -1. -/
structure BenchAcc where
  loadtime : ℚ
  savetime : ℚ
  pixpipe : ℚ
  gpu : Bool
deriving DecidableEq

/-- The initial accumulator of run_benchmark: loadtime = 0.0, savetime = -1,
pixpipe = 0.0, gpu = False. -/
def benchInit : BenchAcc := { loadtime := 0, savetime := -1, pixpipe := 0, gpu := false }

/-- One iteration of run_benchmark's `for t in trace` loop: first the
independent GPU check, then the load/save/pipeline elif chain. -/
def bench_step (acc : BenchAcc) (t : List Char) : Option BenchAcc :=
  let acc1 := if strContains ("GPU".data) t then { acc with gpu := true } else acc
  if strContains ("to load the image".data) t then
    (extract_seconds t).map fun v => { acc1 with loadtime := v }
  else if strContains ("to save the image".data) t then
    (extract_seconds t).map fun v => { acc1 with savetime := v }
  else if strContains ("pipeline processing took".data) t then
    (extract_seconds t).map fun v => { acc1 with pixpipe := v }
  else some acc1

/-- run_benchmark's whole trace loop. -/
def bench_scan (acc : BenchAcc) : List (List Char) → Option BenchAcc
  | [] => some acc
  | t :: rest =>
    match bench_step acc t with
    | none => none
    | some acc1 => bench_scan acc1 rest

/-- The trace-parsing core of `run_benchmark` from darktable-bench: parse
the diagnostic trace lines, default a still-negative savetime to loadtime,
and return (pixpipe, loadtime + pixpipe + savetime, gpu). -/
def run_benchmark (trace : List (List Char)) : Option (ℚ × ℚ × Bool) :=
  match bench_scan benchInit trace with
  | none => none
  | some acc =>
    let savetime := if acc.savetime < 0 then acc.loadtime else acc.savetime
    some (acc.pixpipe, acc.loadtime + acc.pixpipe + savetime, acc.gpu)

theorem bench_scan_savetime (save : List Char) :
    ∀ (trace : List (List Char)) (acc acc1 : BenchAcc),
      (∀ t ∈ trace, strContains save t = false) →
      save = ("to save the image".data) →
      bench_scan acc trace = some acc1 →
      acc1.savetime = acc.savetime := by
  intro trace
  induction trace with
  | nil =>
    intro acc acc1 _ _ h
    simp only [bench_scan] at h
    cases h
    rfl
  | cons t rest ih =>
    intro acc acc1 hns hsave h
    have hnst : strContains save t = false := hns t (by simp)
    have hnsrest : ∀ u ∈ rest, strContains save u = false := by
      intro u hu
      exact hns u (by simp [hu])
    simp only [bench_scan] at h
    rcases hstep : bench_step acc t with _ | acc2
    · rw [hstep] at h
      cases h
    · rw [hstep] at h
      have hmid : acc2.savetime = acc.savetime := by
        rw [hsave] at hnst
        simp only [bench_step, hnst, Bool.false_eq_true, if_false] at hstep
        by_cases hload : strContains ("to load the image".data) t
        · rw [if_pos hload] at hstep
          rcases hex : extract_seconds t with _ | v
          · rw [hex] at hstep
            cases hstep
          · rw [hex] at hstep
            simp only [Option.map_some'] at hstep
            cases hstep
            split <;> rfl
        · rw [if_neg hload] at hstep
          by_cases hpipe : strContains ("pipeline processing took".data) t
          · rw [if_pos hpipe] at hstep
            rcases hex : extract_seconds t with _ | v
            · rw [hex] at hstep
              cases hstep
            · rw [hex] at hstep
              simp only [Option.map_some'] at hstep
              cases hstep
              split <;> rfl
          · rw [if_neg hpipe] at hstep
            cases hstep
            split <;> rfl
      calc acc1.savetime = acc2.savetime := ih acc2 acc1 hnsrest hsave h
        _ = acc.savetime := hmid

/-- C9: for every diagnostic trace without a line containing the substring
`to save the image`, run_benchmark reports a save time equal to the
extracted load time, so the reported overall time is
loadtime + pixpipe + loadtime. -/
theorem run_benchmark_save_defaults_to_load (trace : List (List Char))
    (hns : ∀ t ∈ trace, strContains ("to save the image".data) t = false)
    (acc : BenchAcc) (hacc : bench_scan benchInit trace = some acc) :
    run_benchmark trace
      = some (acc.pixpipe, acc.loadtime + acc.pixpipe + acc.loadtime, acc.gpu) := by
  have hsv : acc.savetime = benchInit.savetime :=
    bench_scan_savetime ("to save the image".data) trace benchInit acc hns rfl hacc
  have hneg : acc.savetime < 0 := by
    rw [hsv]
    norm_num [benchInit]
  unfold run_benchmark
  rw [hacc]
  simp only [if_pos hneg]

/-- Witness for C9 on a two-line trace with a load line and a pipeline line
and no save line. -/
theorem run_benchmark_save_defaults_to_load_check :
    run_benchmark [("it took 1 secs to load the image".data),
        ("pipeline processing took 2 secs".data)]
      = some (2, 1 + 2 + 1, false) := by
  have hacc : bench_scan benchInit
      [("it took 1 secs to load the image".data),
        ("pipeline processing took 2 secs".data)]
      = some { loadtime := 1, savetime := -1, pixpipe := 2, gpu := false } := by
    simp +decide [bench_scan, bench_step, extract_seconds, findFrom, strContains,
      pyStrip, pySpace, pyFloat, takeDigits, digitsToNat, benchInit]
  have h := run_benchmark_save_defaults_to_load
    [("it took 1 secs to load the image".data),
      ("pipeline processing took 2 secs".data)]
    (by decide) { loadtime := 1, savetime := -1, pixpipe := 2, gpu := false } hacc
  exact h

end Bench

namespace Dng

/-- `dt_imageio_dng_write_buf` from imageio_dng.h: the byte buffer is a map
from offsets to byte values; the int `val` (C arithmetic right shift on a
two's-complement int is floor division, which for the positive divisors here
is Euclidean division, and both `& 0xff` and the store into a uint8_t cell
reduce modulo 256) is stored big-endian at offsets adr .. adr+3. -/
def dt_imageio_dng_write_buf (buf : ℕ → ℤ) (adr : ℕ) (val : ℤ) : ℕ → ℤ :=
  fun i =>
    if i = adr + 3 then val % 256
    else if i = adr + 2 then (val / 256) % 256
    else if i = adr + 1 then (val / 65536) % 256
    else if i = adr then (val / 16777216) % 256
    else buf i

/-- C10: `dt_imageio_dng_write_buf` stores `val` at bytes adr..adr+3 in
big-endian order: recomposing buf[adr] << 24 | buf[adr+1] << 16 |
buf[adr+2] << 8 | buf[adr+3] recovers `val` modulo 2^32 — the round trip the
tags emitted by `dt_imageio_dng_make_tag` rely on, consistent with the `MM`
byte-order marker the TIFF header writer emits. -/
theorem dng_write_buf_big_endian_roundtrip (buf : ℕ → ℤ) (adr : ℕ) (val : ℤ) :
    dt_imageio_dng_write_buf buf adr val adr * 16777216
        + dt_imageio_dng_write_buf buf adr val (adr + 1) * 65536
        + dt_imageio_dng_write_buf buf adr val (adr + 2) * 256
        + dt_imageio_dng_write_buf buf adr val (adr + 3)
      = val % 4294967296 := by
  have e0 : dt_imageio_dng_write_buf buf adr val adr = (val / 16777216) % 256 := by
    unfold dt_imageio_dng_write_buf
    rw [if_neg (by omega), if_neg (by omega), if_neg (by omega), if_pos rfl]
  have e1 : dt_imageio_dng_write_buf buf adr val (adr + 1) = (val / 65536) % 256 := by
    unfold dt_imageio_dng_write_buf
    rw [if_neg (by omega), if_neg (by omega), if_pos rfl]
  have e2 : dt_imageio_dng_write_buf buf adr val (adr + 2) = (val / 256) % 256 := by
    unfold dt_imageio_dng_write_buf
    rw [if_neg (by omega), if_pos rfl]
  have e3 : dt_imageio_dng_write_buf buf adr val (adr + 3) = val % 256 := by
    unfold dt_imageio_dng_write_buf
    rw [if_pos rfl]
  rw [e0, e1, e2, e3]
  omega

end Dng
